import Mathlib

/-!
Verification development for the whisper-cleaner repository.

The embedded code is the word-level censoring pipeline of
`src/whisper_cleaner/main.py` (the packaged CLI entry point): the censor loop
of lines 206-236, the interval arithmetic of lines 229-230, the audio splice
of lines 235-236, and the batch file loop of lines 153-295.  Audio is
modelled as a list of samples at millisecond granularity; transcript times
and profanity probabilities are modelled as rationals.
-/

namespace WhisperCleaner

/-- Python `int()` applied to a rational: truncation toward zero
(so `int(-27.5) = -27` and `int(62.5) = 62`).  This is the conversion used in
`begin = int(start_time * 1000 - 90)` and `end = int(end_time * 1000)`
(src/whisper_cleaner/main.py lines 229-230). -/
def pyInt (q : ℚ) : ℤ :=
  if q < 0 then ⌈q⌉ else ⌊q⌋

/-- Python 3 `round()` applied to a rational: round half to even.  Used only
to state the specification's interval formula `round(start_seconds*1000) - 90`
for comparison with the code's actual arithmetic. -/
def pyRound (q : ℚ) : ℤ :=
  if q - (⌊q⌋ : ℚ) < 1/2 then ⌊q⌋
  else if 1/2 < q - (⌊q⌋ : ℚ) then ⌊q⌋ + 1
  else if ⌊q⌋ % 2 = 0 then ⌊q⌋ else ⌊q⌋ + 1

/-- Normalization of one slice endpoint by pydub's `AudioSegment` slicing
(pydub is the external audio dependency; src/whisper_cleaner/main.py lines
235-236 slice `sound_file` with it).  For a segment of `n` milliseconds the
endpoint is first clamped above by `n`; a negative endpoint then addresses
from the end of the segment (`n + a`, Python-style, pydub's
`_parse_position`); a position that is still negative is finally normalized
by the underlying byte-string slice to `max(n + position, 0)`.  The result is
always in `[0, n]`. -/
def sliceIdx (n : ℕ) (a : ℤ) : ℕ :=
  let a1 : ℤ := min a (n : ℤ)
  let a2 : ℤ := if a1 < 0 then (n : ℤ) + a1 else a1
  if a2 < 0 then ((n : ℤ) + a2).toNat else a2.toNat

/-- Millisecond slice `buf[a:b]` of a pydub `AudioSegment`, modelled on a list
of samples at millisecond granularity: the elements in position range
`[sliceIdx n a, sliceIdx n b)`. -/
def pySlice (buf : List α) (a b : ℤ) : List α :=
  (buf.take (sliceIdx buf.length b)).drop (sliceIdx buf.length a)

/-- One censor splice, src/whisper_cleaner/main.py lines 235-236:
`silence_segment = AudioSegment.reverse(sound_file[begin:end])` followed by
`sound_file = sound_file[:begin] + silence_segment + sound_file[end:]`.
An omitted slice start is `0` and an omitted slice stop is the segment
length. -/
def spliceInterval (buf : List α) (b e : ℤ) : List α :=
  pySlice buf 0 b ++ (pySlice buf b e).reverse ++ pySlice buf e (buf.length : ℤ)

/-- Sequential application of a list of excise intervals to a buffer, in the
order the censor loop performs them. -/
def spliceAll (buf : List α) (ivs : List (ℤ × ℤ)) : List α :=
  ivs.foldl (fun acc p => spliceInterval acc p.1 p.2) buf

/-- One transcribed word: the fields `text`, `start` (seconds) and `end`
(seconds) read from `word_data` in src/whisper_cleaner/main.py lines
213-226.  Times are modelled as rationals. -/
structure Word where
  text : String
  start : ℚ
  «end» : ℚ

/-- One transcript segment: its ordered word list
(`result['segments'][i]['words']`, src/whisper_cleaner/main.py line 211). -/
structure Segment where
  words : List Word

/-- State threaded through the censor loop of src/whisper_cleaner/main.py
lines 206-236: the audio buffer being edited, the counters `total_words` and
`profane_words_found`, and the per-word lines `(word, prob, start)` appended
to the profanity log file. -/
structure LoopState (α : Type) where
  buf : List α
  total_words : ℕ
  profane_words_found : ℕ
  log : List (String × ℚ × ℚ)

/-- Excise interval computed for a flagged word, src/whisper_cleaner/main.py
lines 229-230: `begin = int(start_time * 1000 - 90)` and
`end = int(end_time * 1000)`. -/
def wordInterval (w : Word) : ℤ × ℤ :=
  (pyInt (w.start * 1000 - 90), pyInt (w.«end» * 1000))

/-- The excise-interval formula as the specification words it:
`start_ms = round(start_seconds*1000) - 90` clamped to 0 when negative, and
`end_ms = round(end_seconds*1000)`.  Stated only to compare against
`wordInterval`, the formula the code actually computes. -/
def specWordInterval (w : Word) : ℤ × ℤ :=
  (max (pyRound (w.start * 1000) - 90) 0, pyRound (w.«end» * 1000))

/-- Per-word log entry written for every word regardless of outcome,
src/whisper_cleaner/main.py lines 215-220: lower-cased word, probability,
start time. -/
def logEntry (score : String → ℚ) (w : Word) : String × ℚ × ℚ :=
  (w.text.toLower, score w.text.toLower, w.start)

/-- Body of the inner word loop, src/whisper_cleaner/main.py lines 213-236:
count the word, score its lower-cased text, append the log line, and, when
the probability strictly exceeds the threshold, count the word as profane and
splice its excise interval out of the current buffer. -/
def stepWord (score : String → ℚ) (threshold : ℚ) (st : LoopState α)
    (wd : Word) : LoopState α :=
  let word := wd.text.toLower
  let prob := score word
  let st1 : LoopState α :=
    { st with
        total_words := st.total_words + 1
        log := st.log ++ [(word, prob, wd.start)] }
  if prob > threshold then
    { st1 with
        profane_words_found := st1.profane_words_found + 1
        buf := spliceInterval st1.buf (wordInterval wd).1 (wordInterval wd).2 }
  else st1

/-- The inner loop over one segment's word list
(src/whisper_cleaner/main.py line 213). -/
def runWords (score : String → ℚ) (threshold : ℚ) (st : LoopState α)
    (ws : List Word) : LoopState α :=
  ws.foldl (stepWord score threshold) st

/-- The outer loop over the transcript's segments
(src/whisper_cleaner/main.py line 210). -/
def runSegments (score : String → ℚ) (threshold : ℚ) (st : LoopState α)
    (segs : List Segment) : LoopState α :=
  segs.foldl (fun acc sg => runWords score threshold acc sg.words) st

/-- The whole censor pass over one file: the loop state after processing
every segment, starting from the freshly loaded audio buffer and zeroed
counters (src/whisper_cleaner/main.py lines 203-236). -/
def mainLoop (score : String → ℚ) (threshold : ℚ) (buf : List α)
    (segs : List Segment) : LoopState α :=
  runSegments score threshold ⟨buf, 0, 0, []⟩ segs

/-- All words of a transcript in playback order, segments flattened. -/
def flatWords (segs : List Segment) : List Word :=
  segs.foldr (fun sg acc => sg.words ++ acc) []

/-- The words the loop flags: profanity score of the lower-cased text
strictly above the threshold (src/whisper_cleaner/main.py line 223). -/
def flaggedWords (score : String → ℚ) (threshold : ℚ)
    (segs : List Segment) : List Word :=
  (flatWords segs).filter fun w => decide (score w.text.toLower > threshold)

/-- The excise intervals the censor loop hands to the splicer, in transcript
order. -/
def plannedIntervals (score : String → ℚ) (threshold : ℚ)
    (segs : List Segment) : List (ℤ × ℤ) :=
  (flaggedWords score threshold segs).map wordInterval

/-- Steps of the per-file `try:` block of src/whisper_cleaner/main.py lines
178-274, in program order.  `exportClean` is the `sound_file.export` call of
line 251 and `moveOriginal` the `os.rename` call of line 256. -/
inductive Action where
  | mkSongDir
  | transcribe
  | writeProfanityLog
  | loadAudio
  | censor
  | exportClean
  | moveOriginal
  | writeLog
  | writeResultJson
deriving DecidableEq

/-- Python `str.startswith`, modelled on the underlying character lists so
that it reduces in the kernel: `filename.startswith('clean_')` is the check
of src/whisper_cleaner/main.py line 166. -/
def pyStartsWith (s pre : String) : Bool :=
  pre.data.isPrefixOf s.data

/-- Environment for one input file: its base name and which processing steps
succeed when attempted (a `false` entry models that step raising an
exception). -/
structure FileSpec where
  name : String
  ok : Action → Bool

/-- The statements of the `try:` block in source order: the song directory is
created, the file transcribed, the profanity-log header written, the audio
loaded, the censor loop run, the cleaned file exported (line 251), and only
then the original moved to the originals directory (line 256), followed by
the summary log and the transcription JSON. -/
def trySteps : List Action :=
  [.mkSongDir, .transcribe, .writeProfanityLog, .loadAudio, .censor,
   .exportClean, .moveOriginal, .writeLog, .writeResultJson]

/-- Run a statement list under Python exception semantics: statements run in
order and a statement that raises stops execution of the rest.  Returns the
completed statements and whether the block finished without an exception. -/
def runSteps (okf : Action → Bool) : List Action → List Action × Bool
  | [] => ([], true)
  | a :: rest =>
    if okf a then
      let r := runSteps okf rest
      (a :: r.1, r.2)
    else ([], false)

/-- Outcome recorded for one file by the batch loop. -/
inductive FileResult where
  | skippedClean
  | dryRun
  | processed
  | errored
deriving DecidableEq

/-- One iteration of the batch loop, src/whisper_cleaner/main.py lines
162-282: a file whose base name starts with `clean_` is skipped (with a
count) before any processing; in dry-run mode the file is only announced;
otherwise the `try:` block runs and an exception anywhere in it is caught
(line 276), counted as an error, and the loop continues with the next
file. -/
def processFile (dryRun : Bool) (f : FileSpec) : List Action × FileResult :=
  if pyStartsWith f.name "clean_" then ([], .skippedClean)
  else if dryRun then ([], .dryRun)
  else
    let r := runSteps f.ok trySteps
    (r.1, if r.2 then .processed else .errored)

/-- Aggregate state of the batch loop: the counters of
src/whisper_cleaner/main.py lines 154-156 plus, per file in order, the steps
that actually completed for it. -/
structure BatchState where
  processed_count : ℕ
  skipped_count : ℕ
  error_count : ℕ
  trace : List (String × List Action)

/-- One step of the batch fold over the input files. -/
def batchStep (dryRun : Bool) (st : BatchState) (f : FileSpec) : BatchState :=
  let r := processFile dryRun f
  { processed_count := st.processed_count + (if r.2 = .processed then 1 else 0)
    skipped_count := st.skipped_count + (if r.2 = .skippedClean then 1 else 0)
    error_count := st.error_count + (if r.2 = .errored then 1 else 0)
    trace := st.trace ++ [(f.name, r.1)] }

/-- The batch loop over the scanned files, starting from zeroed counters. -/
def runBatch (dryRun : Bool) (files : List FileSpec) : BatchState :=
  files.foldl (batchStep dryRun) ⟨0, 0, 0, []⟩

/-! Helper lemmas about the pydub slice model. -/

theorem sliceIdx_le (n : ℕ) (a : ℤ) : sliceIdx n a ≤ n := by
  simp only [sliceIdx]
  split <;> (try split) <;> omega

theorem sliceIdx_zero (n : ℕ) : sliceIdx n 0 = 0 := by
  simp only [sliceIdx]
  split <;> (try split) <;> omega

theorem sliceIdx_natCast (n a : ℕ) : sliceIdx n (a : ℤ) = min a n := by
  simp only [sliceIdx]
  split <;> (try split) <;> omega

theorem sliceIdx_of_nonneg {a : ℤ} (n : ℕ) (h : 0 ≤ a) :
    sliceIdx n a = min a.toNat n := by
  simp only [sliceIdx]
  split <;> (try split) <;> omega

theorem pySlice_length (buf : List α) (a b : ℤ) :
    (pySlice buf a b).length = sliceIdx buf.length b - sliceIdx buf.length a := by
  simp only [pySlice, List.length_drop, List.length_take]
  have h := sliceIdx_le buf.length b
  omega

theorem spliceInterval_length_of_nonneg (buf : List α) {b e : ℤ}
    (hb : 0 ≤ b) (hbe : b ≤ e) :
    (spliceInterval buf b e).length = buf.length := by
  have he : 0 ≤ e := le_trans hb hbe
  have h1 := sliceIdx_le buf.length b
  have h2 := sliceIdx_le buf.length e
  have h3 : sliceIdx buf.length b ≤ sliceIdx buf.length e := by
    rw [sliceIdx_of_nonneg _ hb, sliceIdx_of_nonneg _ he]
    omega
  simp only [spliceInterval, List.length_append, List.length_reverse,
    pySlice_length, sliceIdx_zero, sliceIdx_natCast, min_self]
  omega

theorem spliceInterval_natCast_eq (buf : List α) (b e : ℕ) :
    spliceInterval buf (b : ℤ) (e : ℤ) =
      buf.take (min b buf.length) ++
        ((buf.take (min e buf.length)).drop (min b buf.length)).reverse ++
        buf.drop (min e buf.length) := by
  simp only [spliceInterval, pySlice, sliceIdx_natCast, sliceIdx_zero,
    min_self, List.drop_zero, List.take_length]

/-! Helper lemmas about the censor loop. -/

theorem stepWord_eq (score : String → ℚ) (threshold : ℚ) (st : LoopState α)
    (wd : Word) :
    stepWord score threshold st wd =
      if score wd.text.toLower > threshold then
        { buf := spliceInterval st.buf (wordInterval wd).1 (wordInterval wd).2
          total_words := st.total_words + 1
          profane_words_found := st.profane_words_found + 1
          log := st.log ++ [logEntry score wd] }
      else
        { st with
            total_words := st.total_words + 1
            log := st.log ++ [logEntry score wd] } := by
  simp only [stepWord, logEntry]

theorem runWords_eq (score : String → ℚ) (threshold : ℚ) (st : LoopState α)
    (ws : List Word) :
    runWords score threshold st ws =
      { buf := spliceAll st.buf
          ((ws.filter fun w => decide (score w.text.toLower > threshold)).map
            wordInterval)
        total_words := st.total_words + ws.length
        profane_words_found := st.profane_words_found +
          (ws.filter fun w => decide (score w.text.toLower > threshold)).length
        log := st.log ++ ws.map (logEntry score) } := by
  induction ws generalizing st with
  | nil => simp [runWords, spliceAll]
  | cons w ws ih =>
    have hstep : runWords score threshold st (w :: ws)
        = runWords score threshold (stepWord score threshold st w) ws := rfl
    rw [hstep, ih, stepWord_eq]
    by_cases h : score w.text.toLower > threshold
    · simp only [if_pos h, List.filter_cons, decide_eq_true_eq, h, ite_true,
        List.map_cons, List.length_cons]
      congr 1 <;> (first | omega | simp [spliceAll, List.append_assoc])
    · simp only [if_neg h, List.filter_cons, decide_eq_true_eq, h, ite_false,
        List.map_cons, List.length_cons]
      congr 1 <;> (first | omega | simp [List.append_assoc])

theorem runSegments_eq (score : String → ℚ) (threshold : ℚ) (st : LoopState α)
    (segs : List Segment) :
    runSegments score threshold st segs =
      { buf := spliceAll st.buf
          (((flatWords segs).filter fun w =>
              decide (score w.text.toLower > threshold)).map wordInterval)
        total_words := st.total_words + (flatWords segs).length
        profane_words_found := st.profane_words_found +
          ((flatWords segs).filter fun w =>
            decide (score w.text.toLower > threshold)).length
        log := st.log ++ (flatWords segs).map (logEntry score) } := by
  induction segs generalizing st with
  | nil => simp [runSegments, flatWords, spliceAll]
  | cons sg segs ih =>
    have hstep : runSegments score threshold st (sg :: segs)
        = runSegments score threshold (runWords score threshold st sg.words)
            segs := rfl
    have hflat : flatWords (sg :: segs) = sg.words ++ flatWords segs := rfl
    rw [hstep, ih, runWords_eq, hflat]
    dsimp only
    simp only [LoopState.mk.injEq, List.filter_append, List.map_append,
      List.length_append]
    refine ⟨?_, by omega, by omega, by simp [List.append_assoc]⟩
    simp [spliceAll, List.foldl_append]

theorem mainLoop_eq (score : String → ℚ) (threshold : ℚ) (buf : List α)
    (segs : List Segment) :
    mainLoop score threshold buf segs =
      { buf := spliceAll buf (plannedIntervals score threshold segs)
        total_words := (flatWords segs).length
        profane_words_found := (flaggedWords score threshold segs).length
        log := (flatWords segs).map (logEntry score) } := by
  rw [mainLoop, runSegments_eq]
  simp [plannedIntervals, flaggedWords]

/-! Helper lemmas about the batch loop. -/

theorem runSteps_eq (okf : Action → Bool) (l : List Action) :
    runSteps okf l = (l.takeWhile okf, l.all okf) := by
  induction l with
  | nil => rfl
  | cons a rest ih =>
    by_cases h : okf a = true
    · simp [runSteps, h, ih, List.takeWhile_cons_of_pos, List.all_cons]
    · simp [runSteps, h, List.takeWhile_cons_of_neg, List.all_cons,
        Bool.eq_false_iff.mpr h]

theorem move_in_trySteps_takeWhile (okf : Action → Bool)
    (h : Action.moveOriginal ∈ trySteps.takeWhile okf) :
    Action.exportClean ∈ trySteps.takeWhile okf ∧
      okf Action.exportClean = true := by
  by_cases h1 : okf Action.mkSongDir = true <;>
    by_cases h2 : okf Action.transcribe = true <;>
    by_cases h3 : okf Action.writeProfanityLog = true <;>
    by_cases h4 : okf Action.loadAudio = true <;>
    by_cases h5 : okf Action.censor = true <;>
    by_cases h6 : okf Action.exportClean = true <;>
    by_cases h7 : okf Action.moveOriginal = true <;>
    simp_all [trySteps, List.takeWhile_cons_of_pos, List.takeWhile_cons_of_neg]

theorem processFile_skipped_iff (d : Bool) (g : FileSpec) :
    (processFile d g).2 = FileResult.skippedClean ↔
      pyStartsWith g.name "clean_" = true := by
  simp only [processFile]
  split
  · simp [*]
  · split
    · simp_all
    · constructor
      · intro hc
        split at hc <;> simp_all
      · intro hc
        simp_all

theorem foldl_batchStep_eq (d : Bool) (files : List FileSpec)
    (st : BatchState) :
    files.foldl (batchStep d) st =
      { processed_count := st.processed_count + (files.filter fun f =>
          decide ((processFile d f).2 = FileResult.processed)).length
        skipped_count := st.skipped_count + (files.filter fun f =>
          decide ((processFile d f).2 = FileResult.skippedClean)).length
        error_count := st.error_count + (files.filter fun f =>
          decide ((processFile d f).2 = FileResult.errored)).length
        trace := st.trace ++ files.map fun f => (f.name, (processFile d f).1) } := by
  induction files generalizing st with
  | nil => simp
  | cons f fs ih =>
    have hstep : (f :: fs).foldl (batchStep d) st
        = fs.foldl (batchStep d) (batchStep d st f) := rfl
    rw [hstep, ih]
    simp only [batchStep, List.filter_cons, List.map_cons, List.length_cons]
    congr 1 <;>
      rcases hr : (processFile d f).2 <;>
      simp [hr, List.append_assoc] <;> omega

theorem runBatch_eq (d : Bool) (files : List FileSpec) :
    runBatch d files =
      { processed_count := (files.filter fun f =>
          decide ((processFile d f).2 = FileResult.processed)).length
        skipped_count := (files.filter fun f =>
          decide ((processFile d f).2 = FileResult.skippedClean)).length
        error_count := (files.filter fun f =>
          decide ((processFile d f).2 = FileResult.errored)).length
        trace := files.map fun f => (f.name, (processFile d f).1) } := by
  rw [runBatch, foldl_batchStep_eq]
  simp

/-! Claim theorems. -/

/-- Claim C2, counterexample: splicing the single excise interval
`(-9, 10)` into a 30-sample buffer changes the buffer's length (pydub treats
the negative start as addressing from the end of the buffer), so length
invariance does not hold for every interval list including negative ones. -/
theorem c2_counterexample :
    (spliceAll (List.range 30) [((-9 : ℤ), 10)]).length ≠
      (List.range 30).length := by
  decide

/-- Claim C2 (amended): for every buffer and every list of excise intervals
whose entries satisfy `0 ≤ start ≤ end` — still allowing out-of-range-above,
overlapping and mutually out-of-order intervals — applying all splices
preserves the buffer's length. -/
theorem c2_length_invariance (buf : List α) (ivs : List (ℤ × ℤ))
    (h : ∀ p ∈ ivs, 0 ≤ p.1 ∧ p.1 ≤ p.2) :
    (spliceAll buf ivs).length = buf.length := by
  induction ivs generalizing buf with
  | nil => rfl
  | cons p ps ih =>
    have hp := h p (List.mem_cons_self p ps)
    have hps : ∀ q ∈ ps, 0 ≤ q.1 ∧ q.1 ≤ q.2 :=
      fun q hq => h q (List.mem_cons_of_mem p hq)
    have hcons : spliceAll buf (p :: ps)
        = spliceAll (spliceInterval buf p.1 p.2) ps := rfl
    rw [hcons, ih _ hps, spliceInterval_length_of_nonneg _ hp.1 hp.2]

/-- Claim C2, witness instance of the amended length invariance. -/
theorem c2_witness :
    (spliceAll (List.range 12) [((3 : ℤ), 7), (5, 20), (0, 0)]).length =
      (List.range 12).length :=
  c2_length_invariance (List.range 12) [((3 : ℤ), 7), (5, 20), (0, 0)]
    (by decide)

/-- Claim C3, counterexample: for the interval `(-9, 10)` on a 30-sample
buffer the splicer does not clamp the negative start to 0 — clamping would
give the reversed-prefix buffer on the right-hand side, but pydub addresses
`-9` from the end of the buffer instead. -/
theorem c3_counterexample :
    spliceInterval (List.range 30) (-9) 10 ≠
      ((List.range 30).take 10).reverse ++ (List.range 30).drop 10 := by
  decide

/-- Claim C3 (amended): for nonnegative endpoints the splicer clamps
`start_ms` and `end_ms` above by `len(buffer)` (not into `[0, len)`), and an
interval lying entirely at or beyond `len(buffer)` leaves the buffer
unchanged; a negative endpoint, however, is not clamped to 0 but addresses
from the end of the buffer. -/
theorem c3_clamping (buf : List α) (b e : ℕ) :
    spliceInterval buf (b : ℤ) (e : ℤ) =
      buf.take (min b buf.length) ++
        ((buf.take (min e buf.length)).drop (min b buf.length)).reverse ++
        buf.drop (min e buf.length) ∧
    (buf.length ≤ b → buf.length ≤ e →
      spliceInterval buf (b : ℤ) (e : ℤ) = buf) := by
  refine ⟨spliceInterval_natCast_eq buf b e, fun h1 h2 => ?_⟩
  rw [spliceInterval_natCast_eq buf b e, Nat.min_eq_right h1,
    Nat.min_eq_right h2]
  simp

/-- Claim C3, witness instance: an interval entirely beyond the buffer end is
a no-op. -/
theorem c3_witness :
    spliceInterval (List.range 5) ((7 : ℕ) : ℤ) ((9 : ℕ) : ℤ) = List.range 5 :=
  (c3_clamping (List.range 5) 7 9).2 (by decide) (by decide)

/-- Claim C5: for a single interval with `0 ≤ start_ms ≤ end_ms ≤
len(buffer)`, the spliced buffer keeps its length, its samples in
`[start_ms, end_ms)` are the reverse of the original samples of that range,
and every sample outside the range is unchanged. -/
theorem c5_single_interval_reversal (buf : List α) (b e : ℕ)
    (hbe : b ≤ e) (hen : e ≤ buf.length) :
    (spliceInterval buf (b : ℤ) (e : ℤ)).length = buf.length ∧
    ∀ i : ℕ, i < buf.length →
      (spliceInterval buf (b : ℤ) (e : ℤ))[i]? =
        if b ≤ i ∧ i < e then buf[b + e - 1 - i]? else buf[i]? := by
  have hbn : b ≤ buf.length := le_trans hbe hen
  have hkey : spliceInterval buf (b : ℤ) (e : ℤ)
      = buf.take b ++ (((buf.take e).drop b).reverse ++ buf.drop e) := by
    rw [spliceInterval_natCast_eq, Nat.min_eq_left hbn, Nat.min_eq_left hen,
      List.append_assoc]
  have hA : (buf.take b).length = b := by
    rw [List.length_take, Nat.min_eq_left hbn]
  have hM : ((buf.take e).drop b).length = e - b := by
    rw [List.length_drop, List.length_take, Nat.min_eq_left hen]
  constructor
  · rw [hkey]
    simp only [List.length_append, List.length_reverse, List.length_drop, hA,
      hM]
    omega
  · intro i hi
    rw [hkey]
    by_cases h1 : i < b
    · rw [List.getElem?_append_left (by rw [hA]; omega),
        List.getElem?_take_of_lt h1, if_neg (by omega)]
    · rw [List.getElem?_append_right (by rw [hA]; omega), hA]
      by_cases h2 : i < e
      · rw [List.getElem?_append_left
            (by rw [List.length_reverse, hM]; omega),
          List.getElem?_reverse (by rw [hM]; omega), hM,
          List.getElem?_drop, List.getElem?_take_of_lt (by omega),
          if_pos ⟨le_of_not_lt h1, h2⟩]
        congr 1
        omega
      · rw [List.getElem?_append_right
            (by rw [List.length_reverse, hM]; omega),
          List.length_reverse, hM, List.getElem?_drop, if_neg (by omega)]
        congr 1
        omega

/-- Claim C5, witness instance on a six-sample buffer with the interval
`[2, 4)`. -/
theorem c5_witness :
    (spliceInterval (List.range 6) ((2 : ℕ) : ℤ) ((4 : ℕ) : ℤ))[2]? =
      if 2 ≤ 2 ∧ 2 < 4 then (List.range 6)[2 + 4 - 1 - 2]?
      else (List.range 6)[2]? :=
  (c5_single_interval_reversal (List.range 6) 2 4 (by decide) (by decide)).2 2
    (by decide)

/-- Claim C6: if no word's profanity score strictly exceeds the threshold,
the censor loop leaves the audio buffer exactly equal to the input buffer. -/
theorem c6_no_flag_passthrough (score : String → ℚ) (threshold : ℚ)
    (buf : List α) (segs : List Segment)
    (h : ∀ w ∈ flatWords segs, ¬ score w.text.toLower > threshold) :
    (mainLoop score threshold buf segs).buf = buf := by
  rw [mainLoop_eq]
  have hnil : flaggedWords score threshold segs = [] := by
    rw [flaggedWords, List.filter_eq_nil_iff]
    intro w hw
    simpa using h w hw
  rw [plannedIntervals, hnil]
  rfl

/-- Claim C6, witness instance with one word scoring 0 at threshold 0. -/
theorem c6_witness :
    (mainLoop (fun _ => (0 : ℚ)) 0 ([5, 6, 7] : List ℕ)
      [⟨[⟨"a", 0, 1⟩]⟩]).buf = [5, 6, 7] :=
  c6_no_flag_passthrough (fun _ => (0 : ℚ)) 0 [5, 6, 7] [⟨[⟨"a", 0, 1⟩]⟩]
    (by intro w hw; simp)

/-- Claim C7, counterexample: a malformed interval (`end < start`) is not
skipped — splicing `(20, 10)` into a 30-sample buffer changes the buffer
(it duplicates the samples in `[10, 20)`), whereas the claim says the buffer
is left unchanged; and no skipped-interval counter exists in the code. -/
theorem c7_counterexample :
    spliceInterval (List.range 30) (20 : ℤ) (10 : ℤ) ≠ List.range 30 := by
  decide

/-- Claim C7 (amended): a malformed interval with `end ≤ start ≤ len(buffer)`
raises no error, but instead of being skipped it rewrites the buffer to
`buf[:start] ++ buf[end:]`, duplicating the samples in `[end, start)` and
growing the buffer by `start - end`; the code keeps no skipped-interval
counter. -/
theorem c7_malformed_interval (buf : List α) (b e : ℕ) (heb : e ≤ b)
    (hbn : b ≤ buf.length) :
    spliceInterval buf (b : ℤ) (e : ℤ) = buf.take b ++ buf.drop e ∧
    (spliceInterval buf (b : ℤ) (e : ℤ)).length = buf.length + (b - e) := by
  have hen : e ≤ buf.length := le_trans heb hbn
  have h1 : spliceInterval buf (b : ℤ) (e : ℤ) = buf.take b ++ buf.drop e := by
    rw [spliceInterval_natCast_eq, Nat.min_eq_left hbn, Nat.min_eq_left hen]
    have hmid : (buf.take e).drop b = [] :=
      List.drop_eq_nil_of_le (by rw [List.length_take]; omega)
    rw [hmid]
    simp
  refine ⟨h1, ?_⟩
  rw [h1]
  simp only [List.length_append, List.length_take, List.length_drop]
  omega

/-- Claim C7, witness instance: the malformed interval `(6, 3)` on an
eight-sample buffer duplicates the samples in `[3, 6)`. -/
theorem c7_witness :
    spliceInterval (List.range 8) ((6 : ℕ) : ℤ) ((3 : ℕ) : ℤ) =
      (List.range 8).take 6 ++ (List.range 8).drop 3 :=
  (c7_malformed_interval (List.range 8) 6 3 (by decide) (by decide)).1

/-- Claim C4: a word is flagged (counted and censored) iff its profanity
score is strictly greater than the threshold — the loop's
`profane_words_found` counts exactly the words with score strictly above the
threshold, and a word whose score equals the threshold leaves the buffer and
the profane counter untouched (only the word count and log grow). -/
theorem c4_threshold_strict (score : String → ℚ) (threshold : ℚ)
    (buf : List α) (segs : List Segment) :
    (mainLoop score threshold buf segs).profane_words_found =
      (flaggedWords score threshold segs).length ∧
    (∀ (st : LoopState α) (w : Word), score w.text.toLower = threshold →
      stepWord score threshold st w =
        { st with
            total_words := st.total_words + 1
            log := st.log ++ [logEntry score w] }) := by
  constructor
  · rw [mainLoop_eq]
  · intro st w h
    rw [stepWord_eq, if_neg]
    rw [h]
    exact lt_irrefl threshold

/-- Claim C4, witness instance: a word whose score equals the threshold is
logged and counted but not censored. -/
theorem c4_witness :
    stepWord (fun _ => (1 : ℚ)/2) ((1 : ℚ)/2)
        (⟨[0, 1], 0, 0, []⟩ : LoopState ℕ) ⟨"a", 0, 1⟩ =
      ⟨[0, 1], 1, 0, [logEntry (fun _ => (1 : ℚ)/2) ⟨"a", 0, 1⟩]⟩ :=
  (c4_threshold_strict (fun _ => (1 : ℚ)/2) ((1 : ℚ)/2) ([] : List ℕ) []).2
    ⟨[0, 1], 0, 0, []⟩ ⟨"a", 0, 1⟩ rfl

/-- Claim C8: the original file is moved to the originals directory only
after a successful export — if the move completed then the export completed
successfully before it; if the export raises, the move does not happen and
the file is recorded as errored; and the batch goes on to process every
remaining file (every file contributes a trace entry, and the error count is
exactly the number of errored files). -/
theorem c8_export_then_archive (g : FileSpec) (files : List FileSpec) :
    (Action.moveOriginal ∈ (processFile false g).1 →
      Action.exportClean ∈ (processFile false g).1 ∧
        g.ok Action.exportClean = true) ∧
    (g.ok Action.exportClean = false →
      pyStartsWith g.name "clean_" = false →
        Action.moveOriginal ∉ (processFile false g).1 ∧
          (processFile false g).2 = FileResult.errored) ∧
    (runBatch false files).trace.map Prod.fst = files.map FileSpec.name ∧
    (runBatch false files).error_count = (files.filter fun f =>
      decide ((processFile false f).2 = FileResult.errored)).length := by
  have hperf : ∀ h : pyStartsWith g.name "clean_" = false,
      (processFile false g).1 = trySteps.takeWhile g.ok := by
    intro h
    simp [processFile, h, runSteps_eq]
  refine ⟨?_, ?_, ?_, ?_⟩
  · intro hmem
    by_cases hs : pyStartsWith g.name "clean_" = true
    · simp [processFile, hs] at hmem
    · rw [hperf (Bool.eq_false_iff.mpr hs)] at hmem ⊢
      exact move_in_trySteps_takeWhile g.ok hmem
  · intro hexp hs
    constructor
    · intro hmem
      rw [hperf hs] at hmem
      have := (move_in_trySteps_takeWhile g.ok hmem).2
      rw [hexp] at this
      exact Bool.false_ne_true this
    · have hall : trySteps.all g.ok = false := by
        simp [trySteps, List.all_cons, hexp]
      simp [processFile, hs, runSteps_eq, hall]
  · rw [runBatch_eq]
    simp [List.map_map]
  · rw [runBatch_eq]

/-- Claim C8, witness instance: a file whose export step raises is not moved
and is recorded as errored. -/
theorem c8_witness :
    Action.moveOriginal ∉
      (processFile false
        ⟨"song.mp3", fun a => decide (a ≠ Action.exportClean)⟩).1 ∧
    (processFile false
        ⟨"song.mp3", fun a => decide (a ≠ Action.exportClean)⟩).2 =
      FileResult.errored :=
  (c8_export_then_archive
      ⟨"song.mp3", fun a => decide (a ≠ Action.exportClean)⟩ []).2.1
    (by decide) (by decide)

/-- Claim C9: every word of the transcript produces exactly one per-word log
entry, in transcript order, and `total_words` equals the number of words
scored; for an empty transcript the planned excise-interval list is empty and
the loop returns the untouched buffer with both counters at zero and an empty
log. -/
theorem c9_per_word_log (score : String → ℚ) (threshold : ℚ) (buf : List α)
    (segs : List Segment) :
    (mainLoop score threshold buf segs).log =
      (flatWords segs).map (logEntry score) ∧
    (mainLoop score threshold buf segs).total_words =
      (flatWords segs).length ∧
    plannedIntervals score threshold [] = ([] : List (ℤ × ℤ)) ∧
    mainLoop score threshold buf ([] : List Segment) = ⟨buf, 0, 0, []⟩ := by
  refine ⟨?_, ?_, rfl, rfl⟩ <;> rw [mainLoop_eq]

/-- Claim C10: every input file whose base name starts with `clean_` is
counted in the skipped-file count and is skipped entirely — its processing
performs no step at all (no transcription, censoring, export, or move) — and
the batch trace records exactly the steps performed for each file in
order. -/
theorem c10_skip_cleaned (d : Bool) (files : List FileSpec) (f : FileSpec) :
    (runBatch d files).skipped_count =
      (files.filter fun g => pyStartsWith g.name "clean_").length ∧
    (pyStartsWith f.name "clean_" = true →
      processFile d f = ([], FileResult.skippedClean)) ∧
    (runBatch d files).trace =
      files.map fun g => (g.name, (processFile d g).1) := by
  refine ⟨?_, fun h => by simp [processFile, h], ?_⟩
  · rw [runBatch_eq]
    have hcongr : ∀ g ∈ files,
        decide ((processFile d g).2 = FileResult.skippedClean) =
          pyStartsWith g.name "clean_" := by
      intro g _
      cases hb : pyStartsWith g.name "clean_" <;>
        simp [processFile_skipped_iff, hb]
    rw [List.filter_congr hcongr]
  · rw [runBatch_eq]

/-- Claim C10, witness instance: a file named `clean_song.mp3` is skipped
with no processing steps. -/
theorem c10_witness :
    processFile false ⟨"clean_song.mp3", fun _ => true⟩ =
      ([], FileResult.skippedClean) :=
  (c10_skip_cleaned false [] ⟨"clean_song.mp3", fun _ => true⟩).2.1
    (by decide)

/-! Evaluation of the interval formulas at the concrete word used for the
claim C1 counterexample: text `"x"`, `start = 1/16 s`, `end = 1/2 s`
(both times exactly representable as binary floats). -/

theorem wordInterval_sample :
    wordInterval ⟨"x", 1/16, 1/2⟩ = (-27, 500) := by
  have hq : ((1 : ℚ)/16 * 1000 - 90) = -55/2 := by norm_num
  have he : ((1 : ℚ)/2 * 1000) = 500 := by norm_num
  simp only [wordInterval, pyInt]
  rw [hq, he, if_pos (show ((-55 : ℚ)/2) < 0 by norm_num),
    if_neg (show ¬((500 : ℚ) < 0) by norm_num)]
  have hceil : ⌈((-55 : ℚ)/2)⌉ = -27 := by
    rw [Int.ceil_eq_iff]
    constructor <;> norm_num
  have hfloor : ⌊(500 : ℚ)⌋ = 500 := by
    rw [Int.floor_eq_iff]
    constructor <;> norm_num
  rw [hceil, hfloor]

theorem specWordInterval_sample :
    specWordInterval ⟨"x", 1/16, 1/2⟩ = (0, 500) := by
  have hq : ((1 : ℚ)/16 * 1000) = 125/2 := by norm_num
  have he : ((1 : ℚ)/2 * 1000) = 500 := by norm_num
  have hf1 : ⌊((125 : ℚ)/2)⌋ = 62 := by
    rw [Int.floor_eq_iff]
    constructor <;> norm_num
  have hf2 : ⌊(500 : ℚ)⌋ = 500 := by
    rw [Int.floor_eq_iff]
    constructor <;> norm_num
  simp only [specWordInterval, pyRound]
  rw [hq, he, hf1, hf2,
    if_neg (show ¬(((125 : ℚ)/2) - ((62 : ℤ) : ℚ) < 1/2) by norm_num),
    if_neg (show ¬((1 : ℚ)/2 < ((125 : ℚ)/2) - ((62 : ℤ) : ℚ)) by norm_num),
    if_pos (show ((62 : ℤ) % 2 = 0) by decide),
    if_pos (show ((500 : ℚ) - ((500 : ℤ) : ℚ) < 1/2) by norm_num)]
  simp only [Prod.mk.injEq]
  exact ⟨by omega, trivial⟩

/-- Claim C1, counterexample: for the flagged word with `start = 1/16 s` and
`end = 1/2 s` the code computes the interval `(int(1000/16 - 90),
int(500)) = (-27, 500)`, while the claimed formula gives
`(max(round(1000/16) - 90, 0), round(500)) = (0, 500)`; the two differ, and
the buffer produced by the censor loop differs from the buffer obtained by
handing the claimed (rounded then clamped) intervals to the splicer. -/
theorem c1_counterexample :
    wordInterval ⟨"x", 1/16, 1/2⟩ ≠ specWordInterval ⟨"x", 1/16, 1/2⟩ ∧
    (mainLoop (fun _ => (1 : ℚ)) ((1 : ℚ)/2) (List.range 30)
        [⟨[⟨"x", 1/16, 1/2⟩]⟩]).buf ≠
      spliceAll (List.range 30)
        ((flaggedWords (fun _ => (1 : ℚ)) ((1 : ℚ)/2)
            [⟨[⟨"x", 1/16, 1/2⟩]⟩]).map specWordInterval) := by
  have hfl : flaggedWords (fun _ => (1 : ℚ)) ((1 : ℚ)/2)
      [⟨[⟨"x", 1/16, 1/2⟩]⟩] = [⟨"x", 1/16, 1/2⟩] := by
    simp [flaggedWords, flatWords, List.filter_cons]
    norm_num
  constructor
  · rw [wordInterval_sample, specWordInterval_sample]
    decide
  · rw [mainLoop_eq, hfl]
    dsimp only
    rw [plannedIntervals, hfl, List.map_cons, List.map_nil, List.map_cons,
      List.map_nil, wordInterval_sample, specWordInterval_sample]
    decide

/-- Claim C1 (amended): for every flagged word, the excise interval handed to
the splicer is `start_ms = int(start_seconds*1000 - 90)` (Python truncation
toward zero, not `round`) and `end_ms = int(end_seconds*1000)`, with no
clamping — a negative `start_ms` is passed to the splicer as is: the buffer
the censor loop produces is exactly the buffer obtained by splicing the
`wordInterval` of every flagged word, in transcript order. -/
theorem c1_loop_splices_word_intervals (score : String → ℚ) (threshold : ℚ)
    (buf : List α) (segs : List Segment) :
    (mainLoop score threshold buf segs).buf =
      spliceAll buf (plannedIntervals score threshold segs) := by
  rw [mainLoop_eq]

end WhisperCleaner
